import Mathlib

/-!
Verification of the go-vnc RFB client library against its specification.

This file gives a shallow embedding, in Lean 4, of the parts of the library
that the verified properties talk about: the pixel-format conversion
(pixel.go), the color map update (pixel.go), the server message decoders
(message_server.go), the client message encoders, the rectangle-encoding
decoders (encoding.go: Cursor pseudo-encoding, Hextile), the protocol-version
handshake, the VNC DES-based authentication wrapper (client_auth.go), and the
connection construction (NewClientConn).

Conventions of the embedding:
- Go byte streams are `List Nat` with each element a byte value; a failed
  read (io.ReadFull hitting EOF, or a Go runtime panic such as an
  out-of-range slice index) is `none` / an error value of an explicit sum.
- Go uint8 / uint16 / uint32 arithmetic is Nat with explicit `% 256`,
  `% 65536`, `% 4294967296` where overflow or conversion matters.
- Go maps are modelled as association lists (insertion ordered); a `nil` Go
  map is `Option.none`, distinct from an empty map, because assigning to a
  nil map panics while reading from one does not.
-/

set_option maxRecDepth 100000

namespace GoVNC

/-- A byte stream is a list of byte values. -/
abbrev ByteStream := List Nat

/-- io.ReadFull into a buffer of size n: returns the n bytes read and the
rest of the stream, or fails on a short stream. -/
def readBytes (n : Nat) (s : ByteStream) : Option (List Nat × ByteStream) :=
  if n ≤ s.length then some (s.take n, s.drop n) else none

/-- Modelled from the spec: the wire codec reads fixed-width scalars in
network byte order (big-endian); `readFixedSize` on a uint8 reads one byte.
(The wire-codec source file is not part of the provided sources.) -/
def readU8 (s : ByteStream) : Option (Nat × ByteStream) :=
  match s with
  | [] => none
  | b :: rest => some (b, rest)

/-- Modelled from the spec: `readFixedSize` on a uint16 reads two bytes,
big-endian. -/
def readU16 (s : ByteStream) : Option (Nat × ByteStream) :=
  match s with
  | b0 :: b1 :: rest => some (256 * b0 + b1, rest)
  | _ => none

/-- Modelled from the spec: `readFixedSize` on a uint32 reads four bytes,
big-endian. -/
def readU32 (s : ByteStream) : Option (Nat × ByteStream) :=
  match s with
  | b0 :: b1 :: b2 :: b3 :: rest =>
      some (16777216 * b0 + 65536 * b1 + 256 * b2 + b3, rest)
  | _ => none

/-- Modelled from the spec: the wire codec writes a uint32 as four
big-endian bytes. -/
def u32be (n : Nat) : List Nat :=
  [n / 16777216 % 256, n / 65536 % 256, n / 256 % 256, n % 256]

/-- Modelled from the spec: the wire codec writes a uint16 as two
big-endian bytes. -/
def u16be (n : Nat) : List Nat :=
  [n / 256 % 256, n % 256]

/-- Color from pixel.go: `type Color struct { R, G, B uint16 }`. -/
structure Color where
  r : Nat
  g : Nat
  b : Nat
deriving DecidableEq, Repr

/-- RFBPixelFormat from pixel.go (the on-wire pixel format record). -/
structure RFBPixelFormat where
  bpp : Nat
  depth : Nat
  bigEndian : Nat
  trueColor : Nat
  redMax : Nat
  greenMax : Nat
  blueMax : Nat
  redShift : Nat
  greenShift : Nat
  blueShift : Nat
deriving DecidableEq, Repr

/-- PixelFormat from pixel.go: derived bytes-per-pixel, byte order and the
color map (Go `ColorMap` is a slice of Colors; the nil slice is `[]`). -/
structure PixelFormat where
  byPP : Nat
  bigEndianOrder : Bool
  fmt : RFBPixelFormat
  colorMap : List Color
deriving DecidableEq, Repr

/-- NewPixelFormat from pixel.go: ByPP = BPP/8; a 256-entry zeroed color map
is allocated exactly when TrueColor = 0; byte order from the BigEndian flag. -/
def newPixelFormat (rpf : RFBPixelFormat) : PixelFormat :=
  { byPP := rpf.bpp / 8
    bigEndianOrder := rpf.bigEndian ≠ 0
    fmt := rpf
    colorMap := if rpf.trueColor = 0 then List.replicate 256 ⟨0, 0, 0⟩ else [] }

/-- The pixel-assembly switch in pixelToRGB (pixel.go): build the pixel
integer from ByPP bytes using the format byte order; a ByPP outside
{1,2,4} leaves the pixel 0 (the Go switch has no default case).  The
callers always pass a buffer of exactly ByPP bytes. -/
def assemblePixel (pf : PixelFormat) (buffer : List Nat) : Nat :=
  match pf.byPP, buffer with
  | 1, b0 :: _ => b0
  | 2, b0 :: b1 :: _ =>
      if pf.bigEndianOrder then 256 * b0 + b1 else 256 * b1 + b0
  | 4, b0 :: b1 :: b2 :: b3 :: _ =>
      if pf.bigEndianOrder then 16777216 * b0 + 65536 * b1 + 256 * b2 + b3
      else 16777216 * b3 + 65536 * b2 + 256 * b1 + b0
  | _, _ => 0

/-- scaleToUint8 from pixel.go, `uint8(float64(num)*255/float64(max)+0.5)`,
modelled by the exact rational it computes, `⌊(num*255)/max + 1/2⌋`: the
float64 computation is exact for the arguments the verified claims use
(max = 255 with num ≤ 255), and num ≤ max keeps the uint8 conversion in
range. -/
def scaleToUint8 (num max : Nat) : Nat :=
  (num * 510 + max) / (2 * max)

/-- pixelToRGB from pixel.go.  In palette mode an out-of-range palette index
makes Go panic (`cm[pixel]` on a 256-entry slice), modelled as `none`. -/
def pixelToRGB (pf : PixelFormat) (buffer : List Nat) : Option (Nat × Nat × Nat) :=
  let pixel := assemblePixel pf buffer
  if pf.fmt.trueColor ≠ 0 then
    some (scaleToUint8 ((pixel >>> pf.fmt.redShift) &&& pf.fmt.redMax) pf.fmt.redMax,
          scaleToUint8 ((pixel >>> pf.fmt.greenShift) &&& pf.fmt.greenMax) pf.fmt.greenMax,
          scaleToUint8 ((pixel >>> pf.fmt.blueShift) &&& pf.fmt.blueMax) pf.fmt.blueMax)
  else
    match pf.colorMap.get? pixel with
    | none => none
    | some c =>
        some (scaleToUint8 c.r 65535, scaleToUint8 c.g 65535, scaleToUint8 c.b 65535)

/-- ReadPixels from pixel.go: per pixel, read ByPP bytes, convert to RGB,
append alpha 255; the output has 4 bytes per pixel. -/
def readPixels (pf : PixelFormat) : Nat → ByteStream → Option (List Nat × ByteStream)
  | 0, s => some ([], s)
  | n + 1, s =>
    match readBytes pf.byPP s with
    | none => none
    | some (buf, s1) =>
      match pixelToRGB pf buf with
      | none => none
      | some (r, g, b) =>
        match readPixels pf n s1 with
        | none => none
        | some (rest, s2) => some (r :: g :: b :: 255 :: rest, s2)

/-- The 32-bit true-color big-endian pixel format of the pixel-conversion
identity: bits_per_pixel 32, maxes 255, shifts (16,8,0). -/
def pf32be : PixelFormat :=
  newPixelFormat
    { bpp := 32, depth := 24, bigEndian := 1, trueColor := 1
      redMax := 255, greenMax := 255, blueMax := 255
      redShift := 16, greenShift := 8, blueShift := 0 }

lemma land_255_eq_mod (n : Nat) : n &&& 255 = n % 256 := by
  have h := Nat.and_pow_two_sub_one_eq_mod n 8
  norm_num at h
  exact h

lemma scaleToUint8_255 (v : Nat) : scaleToUint8 v 255 = v := by
  unfold scaleToUint8
  omega

lemma pixelToRGB_pf32be (R G B : Nat) (hR : R < 256) (hG : G < 256) (hB : B < 256) :
    pixelToRGB pf32be [0, R, G, B] = some (R, G, B) := by
  have hpx : assemblePixel pf32be [0, R, G, B] = 65536 * R + 256 * G + B := by
    simp [assemblePixel, pf32be, newPixelFormat]
  have hshift : ∀ k n : Nat, n >>> k = n / 2 ^ k := fun k n => Nat.shiftRight_eq_div_pow n k
  simp only [pixelToRGB, pf32be, newPixelFormat] at hpx ⊢
  simp only [hpx, hshift, land_255_eq_mod]
  have hr : (65536 * R + 256 * G + B) / 2 ^ 16 % 256 = R := by omega
  have hg : (65536 * R + 256 * G + B) / 2 ^ 8 % 256 = G := by omega
  have hb : (65536 * R + 256 * G + B) / 2 ^ 0 % 256 = B := by omega
  rw [hr, hg, hb, scaleToUint8_255 R, scaleToUint8_255 G, scaleToUint8_255 B]
  simp

lemma readPixels_shape (pf : PixelFormat) :
    ∀ n s out rest, readPixels pf n s = some (out, rest) →
      out.length = 4 * n ∧ ∀ i, i < n → out[4 * i + 3]? = some 255 := by
  intro n
  induction n with
  | zero =>
    intro s out rest h
    simp only [readPixels, Option.some.injEq, Prod.mk.injEq] at h
    obtain ⟨h1, _⟩ := h
    subst h1
    exact ⟨rfl, fun i hi => absurd hi (Nat.not_lt_zero i)⟩
  | succ k ih =>
    intro s out rest h
    rw [readPixels] at h
    cases h1 : readBytes pf.byPP s with
    | none => rw [h1] at h; exact absurd h (by simp)
    | some p =>
      obtain ⟨buf, s1⟩ := p
      rw [h1] at h
      dsimp only at h
      cases h2 : pixelToRGB pf buf with
      | none => rw [h2] at h; exact absurd h (by simp)
      | some t =>
        obtain ⟨r, g, b⟩ := t
        rw [h2] at h
        dsimp only at h
        cases h3 : readPixels pf k s1 with
        | none => rw [h3] at h; exact absurd h (by simp)
        | some q =>
          obtain ⟨restOut, s2⟩ := q
          rw [h3] at h
          dsimp only at h
          simp only [Option.some.injEq, Prod.mk.injEq] at h
          obtain ⟨hout, _⟩ := h
          subst hout
          obtain ⟨hlen, halpha⟩ := ih s1 restOut s2 h3
          refine ⟨by simp [hlen]; ring, ?_⟩
          intro i hi
          cases i with
          | zero => simp
          | succ j =>
            have hidx : 4 * (j + 1) + 3 = (((4 * j + 3) + 1) + 1 + 1) + 1 := by omega
            rw [hidx]
            simp only [List.getElem?_cons_succ]
            exact halpha j (by omega)

/-- C7: for the 32-bit true-color big-endian format with maxes 255 and
shifts (16,8,0), the pixel 0x00RRGGBB converts to RGBA (R,G,B,255); and in
general a successful ReadPixels of n pixels returns exactly 4*n bytes with
every fourth byte (the alpha channel) equal to 255. -/
theorem readPixels_identity_and_alpha :
    (∀ R G B, R < 256 → G < 256 → B < 256 →
      readPixels pf32be 1 [0, R, G, B] = some ([R, G, B, 255], []))
    ∧ (∀ pf n s out rest, readPixels pf n s = some (out, rest) →
        out.length = 4 * n ∧ ∀ i, i < n → out[4 * i + 3]? = some 255) := by
  constructor
  · intro R G B hR hG hB
    have expand : readPixels pf32be 1 [0, R, G, B] =
        match pixelToRGB pf32be [0, R, G, B] with
        | none => none
        | some (r, g, b) => some ([r, g, b, 255], []) := rfl
    rw [expand, pixelToRGB_pf32be R G B hR hG hB]
  · exact readPixels_shape

/-- Witness for C7 at concrete bytes. -/
theorem readPixels_identity_and_alpha_witness :
    readPixels pf32be 1 [0, 17, 34, 51] = some ([17, 34, 51, 255], [])
    ∧ ([17, 34, 51, 255].length = 4 * 1
        ∧ ∀ i, i < 1 → [(17 : Nat), 34, 51, 255][4 * i + 3]? = some 255) :=
  ⟨readPixels_identity_and_alpha.1 17 34 51 (by decide) (by decide) (by decide),
   readPixels_identity_and_alpha.2 pf32be 1 [0, 17, 34, 51] [17, 34, 51, 255] [] (by rfl)⟩

/-! ## Color map update (pixel.go, ColorMap.UpdateColorMap) -/

/-- Outcome of a Go function that may either return a value, return an error
value, or crash with a runtime panic. -/
inductive UpdateResult where
  | ok : List Color → UpdateResult
  | errReturn : List Color → UpdateResult
  | panicked : UpdateResult
deriving DecidableEq, Repr

/-- UpdateColorMap from pixel.go:
`copy(cm[int(firstColor):int(firstColor)+n], colors)`.  The Go slice
expression panics with a slice-bounds-out-of-range runtime error when
firstColor + n exceeds the capacity of cm (equal to its length for color
maps built with make), modelled as `.panicked`.  When the slice expression
succeeds its length is exactly n, so copy returns n and the error branch
testing `copy(...) != n` is unreachable; it is kept here verbatim. -/
def updateColorMap (cm : List Color) (firstColor : Nat) (colors : List Color) :
    UpdateResult :=
  let n := colors.length
  if firstColor + n ≤ cm.length then
    let dstLen := n
    let copied := min dstLen n
    if copied ≠ n then .errReturn cm
    else .ok (cm.take firstColor ++ colors ++ cm.drop (firstColor + n))
  else .panicked

/-- C3: UpdateColorMap writes in-range updates, but an out-of-range update
(first_color + len(colors) > 256) panics via the slice expression instead of
returning an OutOfRange error value. -/
theorem updateColorMap_out_of_range_panics :
    updateColorMap (List.replicate 256 ⟨0, 0, 0⟩) 255 [⟨1, 2, 3⟩, ⟨4, 5, 6⟩]
      = .panicked
    ∧ updateColorMap (List.replicate 256 ⟨0, 0, 0⟩) 254 [⟨1, 2, 3⟩, ⟨4, 5, 6⟩]
      = .ok (List.replicate 254 ⟨0, 0, 0⟩ ++ ([⟨1, 2, 3⟩, ⟨4, 5, 6⟩] ++ []))
    ∧ (∀ cm firstColor colors, firstColor + colors.length ≤ cm.length →
        updateColorMap cm firstColor colors
          = .ok (cm.take firstColor ++ colors ++ cm.drop (firstColor + colors.length))) := by
  refine ⟨by decide, by decide, ?_⟩
  intro cm firstColor colors hle
  simp [updateColorMap, hle]

/-- Witness for C3: the in-range part at a concrete map. -/
theorem updateColorMap_out_of_range_panics_witness :
    updateColorMap [⟨7, 7, 7⟩, ⟨8, 8, 8⟩] 1 [⟨1, 2, 3⟩]
      = .ok ([⟨7, 7, 7⟩].take 1 ++ [⟨1, 2, 3⟩] ++ [⟨7, 7, 7⟩, ⟨8, 8, 8⟩].drop 2)
      := by
  have h := updateColorMap_out_of_range_panics.2.2 [⟨7, 7, 7⟩, ⟨8, 8, 8⟩] 1 [⟨1, 2, 3⟩]
    (by decide)
  rw [h]
  decide

/-! ## Connection state and the SetColorMapEntries server message
(client_auth.go ClientConn, message_server.go) -/

/-- Tags for the four RFC-required server-message decoders plus
caller-registered extras (the concrete decoder structs carry no state that
matters here beyond their identity). -/
inductive ServerMsgDecoder where
  | framebufferUpdate
  | setColorMapEntries
  | bell
  | serverCutText
  | custom (id : Nat)
deriving DecidableEq, Repr

/-- ClientConnConfig from client_auth.go.  `auth` is the list of security
type codes of cfg.Auth (a nil Go slice is `none`); `serverMessages` is a Go
map, where `none` is the nil map: reading a nil map yields zero values but
assigning to one panics. -/
structure ClientConnConfigState where
  auth : Option (List Nat)
  exclusive : Bool
  serverMessages : Option (List (Nat × ServerMsgDecoder))
deriving DecidableEq, Repr

/-- ClientConn from client_auth.go: the mutable per-connection state
(the transport and buffered reader are external and passed as explicit
byte streams). `pixelFormat` is a Go pointer, nil until the handshake. -/
structure ClientConnState where
  protocolVersion : String
  securityType : Nat
  encodingMap : List Int
  pixelFormat : Option PixelFormat
  frameBufferWidth : Nat
  frameBufferHeight : Nat
  desktopName : String
deriving DecidableEq, Repr

/-- The decoded SetColorMapEntriesMsg carried back to the caller. -/
structure SetColorMapEntriesMsgData where
  firstColor : Nat
  colors : List Color
deriving DecidableEq, Repr

/-- Modelled from the spec: `readFixedSize` on a Color reads its three
uint16 fields big-endian in declared order. -/
def readColor (s : ByteStream) : Option (Color × ByteStream) :=
  match readU16 s with
  | none => none
  | some (r, s1) =>
    match readU16 s1 with
    | none => none
    | some (g, s2) =>
      match readU16 s2 with
      | none => none
      | some (b, s3) => some (⟨r, g, b⟩, s3)

/-- Modelled from the spec: `readFixedSize` on a ColorMap slice reads each
Color in order. -/
def readColors : Nat → ByteStream → Option (List Color × ByteStream)
  | 0, s => some ([], s)
  | n + 1, s =>
    match readColor s with
    | none => none
    | some (c, s1) =>
      match readColors n s1 with
      | none => none
      | some (cs, s2) => some (c :: cs, s2)

/-- SetColorMapEntriesMsg.Receive from message_server.go: skip 1 padding
byte, read u16 first_color, u16 count, then the colors.  The connection
state is returned unchanged: despite the doc comment on the message type
("This message will automatically update the color map for the associated
connection"), the decoder never calls UpdateColorMap, and UpdateColorMap
has no callers anywhere in the repository. -/
def setColorMapEntriesReceive (conn : ClientConnState) (s : ByteStream) :
    Option (SetColorMapEntriesMsgData × ClientConnState × ByteStream) :=
  match readBytes 1 s with
  | none => none
  | some (_, s1) =>
    match readU16 s1 with
    | none => none
    | some (firstColor, s2) =>
      match readU16 s2 with
      | none => none
      | some (numColors, s3) =>
        match readColors numColors s3 with
        | none => none
        | some (colors, s4) =>
          some ({ firstColor := firstColor, colors := colors }, conn, s4)

/-- An 8-bit palette pixel format: NewPixelFormat allocates a 256-entry
zeroed color map because TrueColor = 0. -/
def palettePF : PixelFormat :=
  newPixelFormat
    { bpp := 8, depth := 8, bigEndian := 1, trueColor := 0
      redMax := 0, greenMax := 0, blueMax := 0
      redShift := 0, greenShift := 0, blueShift := 0 }

/-- A connection holding the palette pixel format. -/
def connPalette : ClientConnState :=
  { protocolVersion := "RFB 003.008\n"
    securityType := 1
    encodingMap := [0]
    pixelFormat := some palettePF
    frameBufferWidth := 640
    frameBufferHeight := 480
    desktopName := "Test" }

/-- C1: receiving SetColorMapEntries with first color 0 and one color
(65535,0,0) succeeds and carries the color, but leaves the color map entry 0 of the
connection unchanged at (0,0,0): the advertised side effect on the color
map of the connection never happens. -/
theorem setColorMapEntriesReceive_no_side_effect :
    setColorMapEntriesReceive connPalette [9, 0, 0, 0, 1, 255, 255, 0, 0, 0, 0]
      = some ({ firstColor := 0, colors := [⟨65535, 0, 0⟩] }, connPalette, [])
    ∧ palettePF.colorMap[0]? = some ⟨0, 0, 0⟩
    ∧ (⟨0, 0, 0⟩ : Color) ≠ ⟨65535, 0, 0⟩ := by
  refine ⟨rfl, ?_, by decide⟩
  rfl

/-! ## Connection creation (client_auth.go, NewClientConn) and the
encoding map (SetEncodingsMsg.Send) -/

/-- Go map assignment `m[k] = v` on a non-nil map: replace the entry for k
or append a new one. -/
def assocSet (m : List (Nat × ServerMsgDecoder)) (k : Nat) (v : ServerMsgDecoder) :
    List (Nat × ServerMsgDecoder) :=
  match m with
  | [] => [(k, v)]
  | (k0, v0) :: rest =>
    if k0 = k then (k, v) :: rest else (k0, v0) :: assocSet rest k v

/-- Go map read `m[k]` on a non-nil map. -/
def assocGet (m : List (Nat × ServerMsgDecoder)) (k : Nat) : Option ServerMsgDecoder :=
  match m with
  | [] => none
  | (k0, v0) :: rest => if k0 = k then some v0 else assocGet rest k

/-- The Raw encoding type code (encoding.go: RawEncType = EncodingType(0)). -/
def rawEncTypeCode : Int := 0

/-- The None security type code (client_auth.go: NoneSecType = 1). -/
def noneSecTypeCode : Nat := 1

/-- NewClientConn from client_auth.go, its pure state construction (the
net.Dial fallback for a nil transport is external I/O and out of scope).
A nil cfg.Auth is replaced by [NoneAuth]; the four RFC-required server
message decoders are written into cfg.ServerMessages — a write that panics
(Go: assignment to entry in nil map) when the caller supplied a nil map,
modelled as `none`.  The encoding map of the fresh connection holds exactly the
Raw encoding. -/
def newClientConn (cfg : ClientConnConfigState) :
    Option (ClientConnState × ClientConnConfigState) :=
  let cfgAuth : Option (List Nat) :=
    match cfg.auth with
    | none => some [noneSecTypeCode]
    | some a => some a
  match cfg.serverMessages with
  | none => none
  | some m =>
    let m1 := assocSet m 0 .framebufferUpdate
    let m2 := assocSet m1 1 .setColorMapEntries
    let m3 := assocSet m2 2 .bell
    let m4 := assocSet m3 3 .serverCutText
    some
      ({ protocolVersion := ""
         securityType := 0
         encodingMap := [rawEncTypeCode]
         pixelFormat := none
         frameBufferWidth := 0
         frameBufferHeight := 0
         desktopName := "" },
       { cfg with auth := cfgAuth, serverMessages := some m4 })

lemma assocGet_assocSet_self (m : List (Nat × ServerMsgDecoder)) (k : Nat)
    (v : ServerMsgDecoder) : assocGet (assocSet m k v) k = some v := by
  induction m with
  | nil => simp [assocSet, assocGet]
  | cons p rest ih =>
    obtain ⟨k0, v0⟩ := p
    by_cases h : k0 = k
    · simp [assocSet, assocGet, h]
    · simp [assocSet, assocGet, h, ih]

lemma assocGet_assocSet_ne (m : List (Nat × ServerMsgDecoder)) (k k2 : Nat)
    (v : ServerMsgDecoder) (hne : k2 ≠ k) :
    assocGet (assocSet m k v) k2 = assocGet m k2 := by
  have hkk2 : k ≠ k2 := Ne.symm hne
  induction m with
  | nil => simp [assocSet, assocGet, hkk2]
  | cons p rest ih =>
    obtain ⟨k0, v0⟩ := p
    by_cases h : k0 = k
    · subst h
      simp [assocSet, assocGet, hkk2]
    · by_cases h2 : k0 = k2
      · subst h2
        simp [assocSet, assocGet, h]
      · simp [assocSet, assocGet, h, h2, ih]

/-- C10: NewClientConn writes the four RFC-required decoders into the
caller-supplied ServerMessages map; with a nil map the write panics, so a
non-nil map is an unstated precondition of connection creation. -/
theorem newClientConn_registers_required_messages :
    (∀ cfg, cfg.serverMessages = none → newClientConn cfg = none)
    ∧ (∀ cfg m, cfg.serverMessages = some m →
        ∃ conn cfg2 m4, newClientConn cfg = some (conn, cfg2)
          ∧ cfg2.serverMessages = some m4
          ∧ assocGet m4 0 = some .framebufferUpdate
          ∧ assocGet m4 1 = some .setColorMapEntries
          ∧ assocGet m4 2 = some .bell
          ∧ assocGet m4 3 = some .serverCutText) := by
  constructor
  · intro cfg hnil
    simp [newClientConn, hnil]
  · intro cfg m hm
    obtain ⟨a, e, sm⟩ := cfg
    simp only at hm
    subst hm
    refine ⟨_, _,
      assocSet (assocSet (assocSet (assocSet m 0 .framebufferUpdate)
        1 .setColorMapEntries) 2 .bell) 3 .serverCutText,
      rfl, rfl, ?_, ?_, ?_, ?_⟩
    · rw [assocGet_assocSet_ne _ _ _ _ (by omega), assocGet_assocSet_ne _ _ _ _ (by omega),
        assocGet_assocSet_ne _ _ _ _ (by omega), assocGet_assocSet_self]
    · rw [assocGet_assocSet_ne _ _ _ _ (by omega), assocGet_assocSet_ne _ _ _ _ (by omega),
        assocGet_assocSet_self]
    · rw [assocGet_assocSet_ne _ _ _ _ (by omega), assocGet_assocSet_self]
    · rw [assocGet_assocSet_self]

/-- Witness for C10 at a nil and at an empty ServerMessages map. -/
theorem newClientConn_registers_required_messages_witness :
    newClientConn { auth := none, exclusive := false, serverMessages := none } = none
    ∧ (∃ conn cfg2 m4,
        newClientConn { auth := none, exclusive := false, serverMessages := some [] }
          = some (conn, cfg2)
        ∧ cfg2.serverMessages = some m4
        ∧ assocGet m4 0 = some .framebufferUpdate
        ∧ assocGet m4 1 = some .setColorMapEntries
        ∧ assocGet m4 2 = some .bell
        ∧ assocGet m4 3 = some .serverCutText) :=
  ⟨newClientConn_registers_required_messages.1 _ rfl,
   newClientConn_registers_required_messages.2 _ [] rfl⟩

/-- Go map assignment on the fresh encodingMap built by SetEncodingsMsg.Send,
tracked as its key set (the decoders are identified by their Type() codes).
Assigning an existing key overwrites its value and leaves the key set
unchanged. -/
def insertEncKey (ks : List Int) (k : Int) : List Int :=
  if k ∈ ks then ks else ks ++ [k]

/-- Go writeFixedSize of an int32: four big-endian bytes of the value in
two-complement form. -/
def i32be (i : Int) : List Nat :=
  u32be (i % 4294967296).toNat

/-- SetEncodingsMsg.Send from the client-message file: build a fresh map
with Raw first (`encMap[RawEncType] = new RawEncoding`), add each listed
encoding under its Type() code, write the wire bytes (id, 1 padding byte,
u16 count, each type as i32), then replace the encodingMap of the
connection. -/
def setEncodingsSend (conn : ClientConnState) (mid : Nat) (encTypes : List Int) :
    ClientConnState × List Nat :=
  let encMap := encTypes.foldl insertEncKey [rawEncTypeCode]
  let wire := [mid % 256, 0] ++ u16be encTypes.length ++ encTypes.flatMap i32be
  ({ conn with encodingMap := encMap }, wire)

lemma mem_insertEncKey (ks : List Int) (k k2 : Int) :
    k ∈ insertEncKey ks k2 ↔ (k ∈ ks ∨ k = k2) := by
  unfold insertEncKey
  by_cases h : k2 ∈ ks
  · simp only [if_pos h]
    constructor
    · exact Or.inl
    · rintro (hk | hk)
      · exact hk
      · exact hk ▸ h
  · simp [if_neg h]

lemma mem_foldl_insertEncKey (ts : List Int) :
    ∀ acc k, k ∈ ts.foldl insertEncKey acc ↔ (k ∈ acc ∨ k ∈ ts) := by
  induction ts with
  | nil => intro acc k; simp
  | cons t rest ih =>
    intro acc k
    rw [List.foldl_cons, ih, mem_insertEncKey]
    simp only [List.mem_cons]
    tauto

/-- C9: the encoding map contains Raw right after connection creation, and
after every SetEncodings send the map holds exactly the listed encodings
plus Raw — these two operations are the only writers of the encoding map. -/
theorem encodingMap_always_contains_raw :
    (∀ cfg conn cfg2, newClientConn cfg = some (conn, cfg2) →
      ∀ k, k ∈ conn.encodingMap ↔ k = rawEncTypeCode)
    ∧ (∀ conn mid encTypes k,
        k ∈ (setEncodingsSend conn mid encTypes).1.encodingMap
          ↔ (k = rawEncTypeCode ∨ k ∈ encTypes))
    ∧ (∀ conn mid encTypes,
        rawEncTypeCode ∈ (setEncodingsSend conn mid encTypes).1.encodingMap) := by
  refine ⟨?_, ?_, ?_⟩
  · intro cfg conn cfg2 hrun k
    obtain ⟨a, e, sm⟩ := cfg
    cases sm with
    | none => exact absurd hrun (by simp [newClientConn])
    | some m =>
      have hconn : conn.encodingMap = [rawEncTypeCode] := by
        have := congrArg (fun p => (Prod.fst <$> p : Option ClientConnState)) hrun
        simp [newClientConn] at this
        rw [← this]
      rw [hconn]
      simp
  · intro conn mid encTypes k
    simp only [setEncodingsSend]
    rw [mem_foldl_insertEncKey]
    simp
  · intro conn mid encTypes
    simp only [setEncodingsSend]
    rw [mem_foldl_insertEncKey]
    simp

/-- The fresh connection state newClientConn builds. -/
def connFresh : ClientConnState :=
  { protocolVersion := ""
    securityType := 0
    encodingMap := [rawEncTypeCode]
    pixelFormat := none
    frameBufferWidth := 0
    frameBufferHeight := 0
    desktopName := "" }

/-- Witness for C9 at a concrete connection and encoding list. -/
theorem encodingMap_always_contains_raw_witness :
    (∀ k, k ∈ connFresh.encodingMap ↔ k = rawEncTypeCode)
    ∧ ∀ k, k ∈ (setEncodingsSend connPalette 2 [5, 1]).1.encodingMap
        ↔ (k = rawEncTypeCode ∨ k ∈ ([5, 1] : List Int)) :=
  ⟨encodingMap_always_contains_raw.1
      { auth := none, exclusive := false, serverMessages := some [] } connFresh
      { auth := some [noneSecTypeCode], exclusive := false,
        serverMessages := some (assocSet (assocSet (assocSet
          (assocSet [] 0 .framebufferUpdate) 1 .setColorMapEntries) 2 .bell)
          3 .serverCutText) } rfl,
   fun k => encodingMap_always_contains_raw.2.1 connPalette 2 [5, 1] k⟩

/-! ## Protocol-version handshake (hsProtocolVersion) -/

/-- The three recognized version tokens. -/
def protocolVersion3_3 : String := "RFB 003.003\n"

def protocolVersion3_7 : String := "RFB 003.007\n"

def protocolVersion3_8 : String := "RFB 003.008\n"

/-- The bytes of an ASCII string. -/
def strBytes (s : String) : ByteStream := s.data.map Char.toNat

def isDigitByte (b : Nat) : Bool := decide (48 ≤ b) && decide (b ≤ 57)

/-- Parse one or more ASCII digits (the `%d` verb of fmt.Sscanf as it
behaves on the canonical `RFB xxx.yyy` tokens: no signs or extra spaces). -/
def parseDigits (s : ByteStream) : Option (Nat × ByteStream) :=
  let ds := s.takeWhile isDigitByte
  if ds.isEmpty then none
  else some (ds.foldl (fun a d => 10 * a + (d - 48)) 0, s.dropWhile isDigitByte)

/-- fmt.Sscanf with format `RFB %d.%d\n` over the 12-byte token, as it
behaves on tokens of the RFC shape: literal `RFB `, digits, `.`, digits,
`\n`, end of token. -/
def parseRFBVersion (s : ByteStream) : Option (Nat × Nat) :=
  match s with
  | 82 :: 70 :: 66 :: 32 :: rest =>
    match parseDigits rest with
    | none => none
    | some (majr, r1) =>
      match r1 with
      | 46 :: r2 =>
        match parseDigits r2 with
        | none => none
        | some (minr, r3) =>
          if r3 = [10] then some (majr, minr) else none
      | _ => none
  | _ => none

/-- The outcome of hsProtocolVersion. -/
inductive PVOutcome where
  | shortRead
  | badFormat
  | unsupportedVersion
  | ok (response : ByteStream) (negotiated : String)
deriving DecidableEq, Repr

/-- hsProtocolVersion from the handshake file: read 12 bytes, scan
`RFB %d.%d\n`, reject major ≠ 3 or minor < 3, negotiate 3.3 / 3.7 / 3.8 by
the minor, store the negotiated token and write it back. -/
def hsProtocolVersion (input : ByteStream) : PVOutcome :=
  if input.length < 12 then .shortRead
  else
    match parseRFBVersion (input.take 12) with
    | none => .badFormat
    | some (majr, minr) =>
      if majr ≠ 3 ∨ minr < 3 then .unsupportedVersion
      else
        let v := if minr < 7 then protocolVersion3_3
                 else if minr = 7 then protocolVersion3_7
                 else protocolVersion3_8
        .ok (strBytes v) v

/-- C4: on a 12-byte token scanning as (major, minor), the handshake fails
with UnsupportedVersion exactly when major ≠ 3 or minor < 3, and otherwise
responds with 3.3 / 3.7 / 3.8 according to the minor; in particular
`RFB 003.889` elicits `RFB 003.008`, `RFB 003.003` elicits itself, and
`RFB 003.002` is rejected. -/
theorem hsProtocolVersion_negotiation :
    (∀ input majr minr, input.length = 12 → parseRFBVersion input = some (majr, minr) →
      ((hsProtocolVersion input = .unsupportedVersion) ↔ (majr ≠ 3 ∨ minr < 3))
      ∧ (majr = 3 → 3 ≤ minr →
          hsProtocolVersion input =
            .ok (strBytes (if minr < 7 then protocolVersion3_3
                           else if minr = 7 then protocolVersion3_7
                           else protocolVersion3_8))
               (if minr < 7 then protocolVersion3_3
                else if minr = 7 then protocolVersion3_7
                else protocolVersion3_8)))
    ∧ hsProtocolVersion (strBytes "RFB 003.889\n")
        = .ok (strBytes protocolVersion3_8) protocolVersion3_8
    ∧ hsProtocolVersion (strBytes "RFB 003.003\n")
        = .ok (strBytes protocolVersion3_3) protocolVersion3_3
    ∧ hsProtocolVersion (strBytes "RFB 003.002\n") = .unsupportedVersion := by
  refine ⟨?_, by rfl, by rfl, by rfl⟩
  intro input majr minr hlen hparse
  have htake : input.take 12 = input := by
    rw [← hlen]
    exact List.take_length input
  have hnotlt : ¬ input.length < 12 := by omega
  rw [hsProtocolVersion, if_neg hnotlt, htake, hparse]
  dsimp only
  constructor
  · by_cases hc : majr ≠ 3 ∨ minr < 3
    · simp [hc]
    · simp only [if_neg hc]
      simp only [iff_false_intro hc, iff_false]
      intro hcontra
      exact absurd hcontra (by simp)
  · intro h3 h3le
    have hc : ¬(majr ≠ 3 ∨ minr < 3) := by
      push_neg
      exact ⟨h3, by omega⟩
    rw [if_neg hc]

/-- Witness for C4 at the token RFB 003.007. -/
theorem hsProtocolVersion_negotiation_witness :
    ((hsProtocolVersion (strBytes "RFB 003.007\n") = .unsupportedVersion)
        ↔ ((3 : Nat) ≠ 3 ∨ (7 : Nat) < 3))
    ∧ ((3 : Nat) = 3 → 3 ≤ 7 →
        hsProtocolVersion (strBytes "RFB 003.007\n") =
          .ok (strBytes (if (7 : Nat) < 7 then protocolVersion3_3
                         else if (7 : Nat) = 7 then protocolVersion3_7
                         else protocolVersion3_8))
             (if (7 : Nat) < 7 then protocolVersion3_3
              else if (7 : Nat) = 7 then protocolVersion3_7
              else protocolVersion3_8)) :=
  hsProtocolVersion_negotiation.1 (strBytes "RFB 003.007\n") 3 7 (by rfl) (by rfl)

/-! ## VNC authentication (client_auth.go, VNCAuth.encrypt)

The DES block cipher itself is Go standard-library code (crypto/des),
external to this repository; the embedding abstracts it as a function E
from an 8-byte key and an 8-byte block to a ciphertext block and verifies
everything the repository code does around it: key construction, the key
bit-reversal, and the two independent ECB blocks. -/

/-- The three swap steps VNCAuth.encrypt applies to each key byte:
swap adjacent bits, then adjacent pairs, then the two nibbles. -/
def reverseKeyByte (b : Nat) : Nat :=
  let b1 := ((b &&& 0x55) <<< 1) ||| ((b &&& 0xAA) >>> 1)
  let b2 := ((b1 &&& 0x33) <<< 2) ||| ((b1 &&& 0xCC) >>> 2)
  ((b2 &&& 0x0F) <<< 4) ||| ((b2 &&& 0xF0) >>> 4)

/-- Key construction in VNCAuth.encrypt: `key := make([]byte, 8);
copy(key, pw)` (copy the first min(8, len pw) bytes over zeros), then
bit-reverse every byte. -/
def vncAuthKey (pw : List Nat) : List Nat :=
  (pw.take 8 ++ List.replicate (8 - pw.length) 0).map reverseKeyByte

/-- VNCAuth.encrypt: build the key, then encrypt the first and the second
8-byte halves of the challenge independently (each cipher.Encrypt call
processes the first 8 bytes of its argument slice) and concatenate. -/
def vncAuthEncrypt (E : List Nat → List Nat → List Nat) (pw challenge : List Nat) :
    List Nat :=
  let key := vncAuthKey pw
  E key (challenge.take 8) ++ E key ((challenge.drop 8).take 8)

/-- True reversal of the bit order of a byte, stated from the spec
("reversing the bit order of each key byte"). -/
def bitReverse8 (b : Nat) : Nat :=
  (List.range 8).foldl (fun acc i => acc + (((b >>> i) &&& 1) <<< (7 - i))) 0

/-- Truncate-or-right-pad-with-zeros to 8 bytes, stated from the spec. -/
def truncPad8 (pw : List Nat) : List Nat :=
  if pw.length ≤ 8 then pw ++ List.replicate (8 - pw.length) 0 else pw.take 8

lemma reverseKeyByte_eq_bitReverse8 : ∀ b < 256, reverseKeyByte b = bitReverse8 b := by
  decide

lemma copyPad_eq_truncPad8 (pw : List Nat) :
    pw.take 8 ++ List.replicate (8 - pw.length) 0 = truncPad8 pw := by
  unfold truncPad8
  by_cases h : pw.length ≤ 8
  · rw [if_pos h, List.take_of_length_le h]
  · rw [if_neg h]
    have h0 : 8 - pw.length = 0 := by omega
    rw [h0]
    simp

/-- C5: the VNC handshake ciphertext is E(key, first half) ++ E(key,
second half) where the key is the password truncated or zero-padded to 8
bytes with the bit order of every byte reversed (the three swap
steps equal true bit reversal); for a cipher with 8-byte blocks the output
is 16 bytes; the result is a pure function of (password, challenge). -/
theorem vncAuthEncrypt_spec (E : List Nat → List Nat → List Nat)
    (pw challenge : List Nat) (hpw : ∀ b ∈ pw, b < 256)
    (hch : challenge.length = 16) :
    vncAuthEncrypt E pw challenge
      = E ((truncPad8 pw).map bitReverse8) (challenge.take 8)
        ++ E ((truncPad8 pw).map bitReverse8) ((challenge.drop 8).take 8)
    ∧ (challenge.take 8).length = 8
    ∧ ((challenge.drop 8).take 8).length = 8
    ∧ ((∀ k b, (E k b).length = 8) →
        (vncAuthEncrypt E pw challenge).length = 16) := by
  have hkey : vncAuthKey pw = (truncPad8 pw).map bitReverse8 := by
    unfold vncAuthKey
    rw [copyPad_eq_truncPad8]
    apply List.map_congr_left
    intro b hb
    apply reverseKeyByte_eq_bitReverse8
    unfold truncPad8 at hb
    by_cases h : pw.length ≤ 8
    · rw [if_pos h] at hb
      rcases List.mem_append.mp hb with h1 | h1
      · exact hpw b h1
      · have := List.eq_of_mem_replicate h1
        omega
    · rw [if_neg h] at hb
      exact hpw b (List.mem_of_mem_take hb)
  refine ⟨?_, ?_, ?_, ?_⟩
  · unfold vncAuthEncrypt
    rw [hkey]
  · simp [List.length_take, hch]
  · simp [List.length_take, List.length_drop, hch]
  · intro hE
    unfold vncAuthEncrypt
    simp [hE]

/-- Witness for C5 at a concrete cipher, password and challenge. -/
theorem vncAuthEncrypt_spec_witness :
    vncAuthEncrypt (fun k b => (k.zipWith (fun x y => (x + y) % 256) b))
        [112, 119] (List.range 16)
      = (fun (k b : List Nat) => (k.zipWith (fun x y => (x + y) % 256) b))
          ((truncPad8 [112, 119]).map bitReverse8) ((List.range 16).take 8)
        ++ (fun (k b : List Nat) => (k.zipWith (fun x y => (x + y) % 256) b))
          ((truncPad8 [112, 119]).map bitReverse8) (((List.range 16).drop 8).take 8)
    ∧ ((List.range 16).take 8).length = 8
    ∧ (((List.range 16).drop 8).take 8).length = 8
    ∧ ((∀ k b, ((fun (k b : List Nat) => (k.zipWith (fun x y => (x + y) % 256) b)) k b).length = 8) →
        (vncAuthEncrypt (fun k b => (k.zipWith (fun x y => (x + y) % 256) b))
          [112, 119] (List.range 16)).length = 16) :=
  vncAuthEncrypt_spec (fun k b => (k.zipWith (fun x y => (x + y) % 256) b))
    [112, 119] (List.range 16) (by decide) (by decide)

/-! ## ClientCutText (client-message file, ClientCutTextMsg.Send) -/

/-- Go UTF-8 encoding of one code point (`[]byte(string)` encodes the
runes of the string in UTF-8); the validated Send path only ever reaches the
one- and two-byte branches, since it rejects runes above 0xFF. -/
def utf8EncodeChar (c : Nat) : List Nat :=
  if c < 128 then [c]
  else if c < 2048 then [192 + c / 64, 128 + c % 64]
  else if c < 65536 then [224 + c / 4096, 128 + c / 64 % 64, 128 + c % 64]
  else [240 + c / 262144, 128 + c / 4096 % 64, 128 + c / 64 % 64, 128 + c % 64]

/-- unicode.MaxLatin1. -/
def maxLatin1 : Nat := 255

/-- Outcome of a client-message Send: either an error returned before any
transport write, or the single byte string passed to the transport Write. -/
inductive SendOutcome where
  | invalidText
  | sent (bytes : List Nat)
deriving DecidableEq, Repr

/-- ClientCutTextMsg.Send: reject any rune above MaxLatin1 before writing
anything; otherwise write, in one transport call, the id byte, 3 zero
padding bytes (`make([]byte, 4)` with only buf[0] assigned), the u32
big-endian byte length of `[]byte(m.Text)` — the UTF-8 bytes — and those
bytes.  The text is its list of code points. -/
def clientCutTextSend (mid : Nat) (text : List Nat) : SendOutcome :=
  if text.any (fun c => decide (maxLatin1 < c)) then .invalidText
  else
    let textBytes := text.flatMap utf8EncodeChar
    .sent ([mid % 256, 0, 0, 0] ++ u32be textBytes.length ++ textBytes)

/-- The ClientCutText wire bytes the specification prescribes: id, 3
padding bytes, u32 byte length, then the Latin-1 bytes — one byte per
character.  Stated from the spec for comparison. -/
def specClientCutTextBytes (mid : Nat) (text : List Nat) : List Nat :=
  [mid % 256, 0, 0, 0] ++ u32be text.length ++ text

/-- C8: the invalid-text half of the claim holds (a code point above 0xFF
fails before any byte is written), but for the Latin-1 character U+00E9 the
code writes its two UTF-8 bytes (0xC3 0xA9) and counts them in the length,
not the single Latin-1 byte 0xE9 the spec prescribes. -/
theorem clientCutTextSend_utf8_not_latin1 :
    clientCutTextSend 6 [233] = .sent [6, 0, 0, 0, 0, 0, 0, 2, 195, 169]
    ∧ clientCutTextSend 6 [256] = .invalidText
    ∧ specClientCutTextBytes 6 [233] = [6, 0, 0, 0, 0, 0, 0, 1, 233]
    ∧ clientCutTextSend 6 [233] ≠ .sent (specClientCutTextBytes 6 [233])
    ∧ (∀ text, (∀ c ∈ text, c < 128) →
        clientCutTextSend 6 text = .sent (specClientCutTextBytes 6 text)) := by
  refine ⟨by decide, by decide, by decide, by decide, ?_⟩
  intro text hascii
  have henc : text.flatMap utf8EncodeChar = text := by
    induction text with
    | nil => rfl
    | cons c rest ih =>
      have hc : c < 128 := hascii c (List.mem_cons_self c rest)
      rw [List.flatMap_cons, ih (fun x hx => hascii x (List.mem_cons_of_mem c hx))]
      simp [utf8EncodeChar, hc]
  have hval : text.any (fun c => decide (maxLatin1 < c)) = false := by
    rw [List.any_eq_false]
    intro c hc
    have := hascii c hc
    simp [maxLatin1]
    omega
  rw [clientCutTextSend, hval]
  simp only [Bool.false_eq_true, if_false, henc, specClientCutTextBytes]

/-- Witness for the ASCII part of C8 at concrete text. -/
theorem clientCutTextSend_utf8_not_latin1_witness :
    clientCutTextSend 6 [104, 105] = .sent (specClientCutTextBytes 6 [104, 105]) :=
  clientCutTextSend_utf8_not_latin1.2.2.2.2 [104, 105] (by decide)

/-! ## Cursor pseudo-encoding (encoding.go, CursorPseudoEncoding.Read) -/

/-- Zero the four RGBA bytes starting at index p (the four assignments
`rgbaBuffer[pIdx..pIdx+3] = 0`; indices are in range for the inputs the
decoder produces, absent uint16 overflow). -/
def zeroRGBA (buf : List Nat) (p : Nat) : List Nat :=
  ((((buf.set p 0).set (p + 1) 0).set (p + 2) 0).set (p + 3) 0)

/-- The inner `for idx, k := j/8, 7; k >= 0; k--` loop of the cursor mask
pass: for each bit k of the mask byte, counting down from the MSB, if the
bit is 0 zero the four bytes at pIdx — note pIdx does not depend on k, a
verbatim translation of the source. -/
def cursorMaskStep (maskByte pIdx : Nat) (buf : List Nat) : List Nat :=
  (List.range 8).foldl
    (fun b k => if maskByte &&& (1 <<< (7 - k)) = 0 then zeroRGBA b pIdx else b) buf

/-- One row i of the cursor mask pass: j runs over 0, 8, 16, ... below the
width; idx = j/8 (with no row offset — verbatim from the source) and
pIdx = j*4 + i*rectStride in uint16 arithmetic (rectStride = 4*width). -/
def cursorRow (w : Nat) (mask : List Nat) (i : Nat) (buf : List Nat) : List Nat :=
  (List.range ((w + 7) / 8)).foldl
    (fun b jj =>
      let j := 8 * jj
      let idx := j / 8
      let pIdx := (j * 4 + i * (4 * w % 65536)) % 65536
      cursorMaskStep (mask.getD idx 0) pIdx b) buf

/-- The full cursor mask pass over all rows. -/
def applyCursorMask (w h : Nat) (mask buf : List Nat) : List Nat :=
  (List.range h).foldl (fun b i => cursorRow w mask i b) buf

/-- CursorPseudoEncoding.Read: read height*width pixels as RGBA, then a
mask of (width+7)/8*height bytes, then run the mask pass over the RGBA
buffer. -/
def cursorPseudoRead (pf : PixelFormat) (w h : Nat) (s : ByteStream) :
    Option (List Nat × ByteStream) :=
  match readPixels pf (h * w) s with
  | none => none
  | some (rgba, s1) =>
    match readBytes ((w + 7) / 8 * h) s1 with
    | none => none
    | some (mask, s2) => some (applyCursorMask w h mask rgba, s2)

/-- The mask bit the specification prescribes for the pixel at row i,
column j: mask rows of ceil(width/8) bytes, MSB-first within each byte.
Stated from the spec for comparison. -/
def specMaskBit (w : Nat) (mask : List Nat) (i j : Nat) : Bool :=
  (mask.getD (i * ((w + 7) / 8) + j / 8) 0) >>> (7 - j % 8) &&& 1 = 1

/-- C2: for a 2-by-1 cursor whose mask byte is 0xBF (MSB 1, next bit 0),
the claim requires pixel (0,0) preserved and pixel (0,1) zeroed, but the
decoder zeroes pixel (0,0) and preserves pixel (0,1): the pixel index it
clears ignores which mask bit failed (and the mask byte index ignores the
row). -/
theorem cursorPseudoRead_masks_wrong_pixel :
    cursorPseudoRead pf32be 2 1 [0, 255, 255, 255, 0, 255, 255, 255, 191]
      = some ([0, 0, 0, 0, 255, 255, 255, 255], [])
    ∧ specMaskBit 2 [191] 0 0 = true
    ∧ specMaskBit 2 [191] 0 1 = false := by
  refine ⟨?_, by decide, by decide⟩
  rfl

/-! ## Hextile encoding (encoding.go, HextileEncoding.Read)

The decoder draws into an image; the embedding records the sequence of
draw.Draw calls (each a destination rectangle with either raw tile pixels
or a uniform color) — the assembled image is determined by replaying them
in order, and the coverage property quantifies over them. -/

/-- A half-open pixel rectangle [x0, x1) x [y0, y1), image.Rect style. -/
structure Rect where
  x0 : Nat
  y0 : Nat
  x1 : Nat
  y1 : Nat
deriving DecidableEq, Repr

/-- Membership of a pixel in a rectangle. -/
def Rect.covers (r : Rect) (x y : Nat) : Prop :=
  r.x0 ≤ x ∧ x < r.x1 ∧ r.y0 ≤ y ∧ y < r.y1

instance (r : Rect) (x y : Nat) : Decidable (r.covers x y) := by
  unfold Rect.covers
  infer_instance

/-- One draw.Draw call issued by the Hextile decoder. -/
inductive DrawOp where
  | rawTile (r : Rect) (rgba : List Nat)
  | fill (r : Rect) (color : Nat × Nat × Nat × Nat)
deriving DecidableEq, Repr

/-- The destination rectangle of a draw call. -/
def DrawOp.rect : DrawOp → Rect
  | .rawTile r _ => r
  | .fill r _ => r

/-- The Hextile decoder state threaded through the tile loop: the
remaining input, the background and foreground uniform colors (initially
color.Black, RGBA (0,0,0,255)), and the draw calls issued so far. -/
structure HexState where
  stream : ByteStream
  bg : Nat × Nat × Nat × Nat
  fg : Nat × Nat × Nat × Nat
  draws : List DrawOp
deriving DecidableEq, Repr

/-- readPixelToUniform from encoding.go: read one pixel via ReadPixels and
form a uniform color from its four RGBA bytes. -/
def readPixelToUniform (pf : PixelFormat) (s : ByteStream) :
    Option ((Nat × Nat × Nat × Nat) × ByteStream) :=
  match readPixels pf 1 s with
  | none => none
  | some (buf, s1) =>
    match buf with
    | r :: g :: b :: a :: _ => some ((r, g, b, a), s1)
    | _ => none

/-- The tile width at tile origin tx: the source sets tw to
twLast = width % 16 exactly at tx = txLast = width - twLast (the last
iteration of the row when twLast is nonzero, unreachable when it is 0). -/
def hexTileW (w tx : Nat) : Nat :=
  if tx = w - w % 16 then w % 16 else 16

/-- The tile height at tile origin ty, same scheme as hexTileW. -/
def hexTileH (h ty : Nat) : Nat :=
  if ty = h - h % 16 then h % 16 else 16

/-- The subrectangle loop of one tile: each subrectangle optionally reads
its own color (SubrectsColoured), else uses the current foreground; then
two bytes xy, wh give x = xy>>4, y = xy&0xF, w = (wh>>4)+1, h = (wh&0xF)+1
relative to the tile top-left corner and the filled rectangle is drawn. -/
def readSubrects (pf : PixelFormat) (colored : Bool) (tx ty : Nat) :
    Nat → HexState → Option HexState
  | 0, st => some st
  | n + 1, st =>
    match (if colored then readPixelToUniform pf st.stream
           else some (st.fg, st.stream)) with
    | none => none
    | some (uimg, s1) =>
      match readBytes 2 s1 with
      | none => none
      | some (box, s2) =>
        let xy := box.getD 0 0
        let wh := box.getD 1 0
        let sy := ty + (xy &&& 15)
        let sx := tx + (xy >>> 4)
        let sh := (wh &&& 15) + 1
        let sw := (wh >>> 4) + 1
        readSubrects pf colored tx ty n
          { st with
              stream := s2
              draws := st.draws ++ [.fill ⟨sx, sy, sx + sw, sy + sh⟩ uimg] }

/-- One tile of HextileEncoding.Read: read the subencoding byte; Raw tiles
consume tw*th pixels and draw them over the whole tile; otherwise the
background and foreground are optionally replaced (each one pixel), the
tile is filled with the background, and if AnySubrects a count byte and
that many subrectangles follow. -/
def processTile (pf : PixelFormat) (w h : Nat) (st : HexState) (tc : Nat × Nat) :
    Option HexState :=
  let tx := tc.1
  let ty := tc.2
  let tw := hexTileW w tx
  let th := hexTileH h ty
  match readU8 st.stream with
  | none => none
  | some (subenc, s1) =>
    let dst : Rect := ⟨tx, ty, tx + tw, ty + th⟩
    if subenc &&& 1 ≠ 0 then
      match readPixels pf (tw * th) s1 with
      | none => none
      | some (rgba, s2) =>
        some { st with stream := s2, draws := st.draws ++ [.rawTile dst rgba] }
    else
      match (if subenc &&& 2 ≠ 0 then readPixelToUniform pf s1
             else some (st.bg, s1)) with
      | none => none
      | some (bg1, s2) =>
        match (if subenc &&& 4 ≠ 0 then readPixelToUniform pf s2
               else some (st.fg, s2)) with
        | none => none
        | some (fg1, s3) =>
          let st1 : HexState :=
            { stream := s3, bg := bg1, fg := fg1
              draws := st.draws ++ [.fill dst bg1] }
          if subenc &&& 8 = 0 then some st1
          else
            match readU8 st1.stream with
            | none => none
            | some (numSubRect, s4) =>
              readSubrects pf (subenc &&& 16 ≠ 0) tx ty numSubRect
                { st1 with stream := s4 }

/-- The tile origins visited by the two nested loops, in raster order:
ty = 0, 16, ... below the height; within each row tx = 0, 16, ... below
the width. -/
def hextileTiles (w h : Nat) : List (Nat × Nat) :=
  (List.range ((h + 15) / 16)).flatMap
    (fun r => (List.range ((w + 15) / 16)).map (fun c => (16 * c, 16 * r)))

/-- HextileEncoding.Read: fold the tile loop over the raster-order tile
list from the initial state (black background and foreground, no draws). -/
def hextileRead (pf : PixelFormat) (w h : Nat) (s : ByteStream) :
    Option (List DrawOp × ByteStream) :=
  match (hextileTiles w h).foldlM (processTile pf w h)
      { stream := s, bg := (0, 0, 0, 255), fg := (0, 0, 0, 255), draws := [] } with
  | none => none
  | some st => some (st.draws, st.stream)

lemma readSubrects_draws (pf : PixelFormat) (colored : Bool) (tx ty : Nat) :
    ∀ n st st2, readSubrects pf colored tx ty n st = some st2 →
      ∃ tail, st2.draws = st.draws ++ tail := by
  intro n
  induction n with
  | zero =>
    intro st st2 hs
    simp only [readSubrects, Option.some.injEq] at hs
    exact ⟨[], by simp [← hs]⟩
  | succ k ih =>
    intro st st2 hs
    rw [readSubrects] at hs
    cases h1 : (if colored then readPixelToUniform pf st.stream
                else some (st.fg, st.stream)) with
    | none => rw [h1] at hs; exact absurd hs (by simp)
    | some p =>
      obtain ⟨uimg, s1⟩ := p
      rw [h1] at hs
      dsimp only at hs
      cases h2 : readBytes 2 s1 with
      | none => rw [h2] at hs; exact absurd hs (by simp)
      | some q =>
        obtain ⟨box, s2⟩ := q
        rw [h2] at hs
        dsimp only at hs
        obtain ⟨tail, htail⟩ := ih _ st2 hs
        dsimp only at htail
        exact ⟨_, htail.trans (List.append_assoc _ _ _)⟩

lemma processTile_draws (pf : PixelFormat) (w h : Nat) (st st2 : HexState)
    (tc : Nat × Nat) (hp : processTile pf w h st tc = some st2) :
    (∃ tail, st2.draws = st.draws ++ tail)
    ∧ ∃ op ∈ st2.draws,
        op.rect = ⟨tc.1, tc.2, tc.1 + hexTileW w tc.1, tc.2 + hexTileH h tc.2⟩ := by
  rw [processTile] at hp
  cases h1 : readU8 st.stream with
  | none => rw [h1] at hp; exact absurd hp (by simp)
  | some p =>
    obtain ⟨subenc, s1⟩ := p
    rw [h1] at hp
    dsimp only at hp
    by_cases hraw : subenc &&& 1 ≠ 0
    · rw [if_pos hraw] at hp
      cases h2 : readPixels pf (hexTileW w tc.1 * hexTileH h tc.2) s1 with
      | none => rw [h2] at hp; exact absurd hp (by simp)
      | some q =>
        obtain ⟨rgba, s2⟩ := q
        rw [h2] at hp
        dsimp only at hp
        simp only [Option.some.injEq] at hp
        subst hp
        exact ⟨⟨_, rfl⟩,
          DrawOp.rawTile ⟨tc.1, tc.2, tc.1 + hexTileW w tc.1, tc.2 + hexTileH h tc.2⟩ rgba,
          List.mem_append_right _ (List.mem_singleton_self _), rfl⟩
    · rw [if_neg hraw] at hp
      cases h2 : (if subenc &&& 2 ≠ 0 then readPixelToUniform pf s1
                  else some (st.bg, s1)) with
      | none => rw [h2] at hp; exact absurd hp (by simp)
      | some q =>
        obtain ⟨bg1, s2⟩ := q
        rw [h2] at hp
        dsimp only at hp
        cases h3 : (if subenc &&& 4 ≠ 0 then readPixelToUniform pf s2
                    else some (st.fg, s2)) with
        | none => rw [h3] at hp; exact absurd hp (by simp)
        | some q2 =>
          obtain ⟨fg1, s3⟩ := q2
          rw [h3] at hp
          dsimp only at hp
          by_cases hsub : subenc &&& 8 = 0
          · rw [if_pos hsub] at hp
            simp only [Option.some.injEq] at hp
            subst hp
            exact ⟨⟨_, rfl⟩,
              DrawOp.fill ⟨tc.1, tc.2, tc.1 + hexTileW w tc.1, tc.2 + hexTileH h tc.2⟩ bg1,
              List.mem_append_right _ (List.mem_singleton_self _), rfl⟩
          · rw [if_neg hsub] at hp
            cases h4 : readU8 s3 with
            | none => rw [h4] at hp; exact absurd hp (by simp)
            | some q3 =>
              obtain ⟨numSubRect, s4⟩ := q3
              rw [h4] at hp
              dsimp only at hp
              obtain ⟨tail, htail⟩ := readSubrects_draws pf _ _ _ _ _ _ hp
              dsimp only at htail
              rw [htail, List.append_assoc]
              exact ⟨⟨_, rfl⟩,
                DrawOp.fill ⟨tc.1, tc.2, tc.1 + hexTileW w tc.1, tc.2 + hexTileH h tc.2⟩ bg1,
                List.mem_append_right _
                  (List.mem_append_left _ (List.mem_singleton_self _)), rfl⟩

lemma foldlM_processTile_draws (pf : PixelFormat) (w h : Nat) :
    ∀ (l : List (Nat × Nat)) (st st2 : HexState),
      List.foldlM (processTile pf w h) st l = some st2 →
      (∃ tail, st2.draws = st.draws ++ tail)
      ∧ ∀ tc ∈ l, ∃ op ∈ st2.draws,
          op.rect = ⟨tc.1, tc.2, tc.1 + hexTileW w tc.1, tc.2 + hexTileH h tc.2⟩ := by
  intro l
  induction l with
  | nil =>
    intro st st2 hfold
    simp only [List.foldlM_nil, Option.pure_def, Option.some.injEq] at hfold
    subst hfold
    exact ⟨⟨[], by simp⟩, by simp⟩
  | cons t ts ih =>
    intro st st2 hfold
    rw [List.foldlM_cons] at hfold
    cases h1 : processTile pf w h st t with
    | none => rw [h1] at hfold; exact absurd hfold (by simp)
    | some st1 =>
      rw [h1] at hfold
      simp only [Option.bind_eq_bind, Option.some_bind] at hfold
      obtain ⟨⟨tail2, htail2⟩, hmem⟩ := ih st1 st2 hfold
      obtain ⟨⟨tail1, htail1⟩, ⟨op, hopmem, hoprect⟩⟩ :=
        processTile_draws pf w h st st1 t h1
      refine ⟨⟨tail1 ++ tail2, by rw [htail2, htail1, List.append_assoc]⟩, ?_⟩
      intro tc htc
      rcases List.mem_cons.mp htc with hEq | hts
      · subst hEq
        exact ⟨op, by rw [htail2]; exact List.mem_append_left _ hopmem, hoprect⟩
      · exact hmem tc hts

lemma tile_mem (w h x y : Nat) (hx : x < w) (hy : y < h) :
    (16 * (x / 16), 16 * (y / 16)) ∈ hextileTiles w h := by
  unfold hextileTiles
  rw [List.mem_flatMap]
  refine ⟨y / 16, ?_, ?_⟩
  · rw [List.mem_range]; omega
  · rw [List.mem_map]
    exact ⟨x / 16, by rw [List.mem_range]; omega, rfl⟩

lemma tile_covers (w x : Nat) (hx : x < w) :
    16 * (x / 16) ≤ x ∧ x < 16 * (x / 16) + hexTileW w (16 * (x / 16)) := by
  unfold hexTileW
  by_cases hc : 16 * (x / 16) = w - w % 16
  · rw [if_pos hc]; omega
  · rw [if_neg hc]; omega

/-- C6: if a Hextile decode of a W-by-H rectangle (W, H > 0) succeeds,
every pixel of the output lies in the destination rectangle of at least
one issued draw call (a raw tile, the background fill of its tile, or a
subrectangle fill); and over the raster-order tile grid, the tile width is
W mod 16 exactly at the rightmost tile column when W mod 16 is nonzero and
16 otherwise (and likewise the tile height with H mod 16 at the bottom
row). -/
theorem hextileRead_coverage (pf : PixelFormat) (w h : Nat) (hw : 0 < w)
    (hh : 0 < h) (s : ByteStream) (ops : List DrawOp) (rest : ByteStream)
    (hrun : hextileRead pf w h s = some (ops, rest)) :
    (∀ x y, x < w → y < h → ∃ op ∈ ops, (DrawOp.rect op).covers x y)
    ∧ (∀ tc ∈ hextileTiles w h,
        (hexTileW w tc.1 = if w % 16 = 0 then 16
          else if tc.1 = 16 * ((w - 1) / 16) then w % 16 else 16)
        ∧ (hexTileH h tc.2 = if h % 16 = 0 then 16
          else if tc.2 = 16 * ((h - 1) / 16) then h % 16 else 16)) := by
  unfold hextileRead at hrun
  cases hfold : List.foldlM (processTile pf w h)
      { stream := s, bg := (0, 0, 0, 255), fg := (0, 0, 0, 255), draws := [] }
      (hextileTiles w h) with
  | none => rw [hfold] at hrun; exact absurd hrun (by simp)
  | some st =>
    rw [hfold] at hrun
    dsimp only at hrun
    simp only [Option.some.injEq, Prod.mk.injEq] at hrun
    obtain ⟨hops, hrest⟩ := hrun
    subst hops
    obtain ⟨_, hmem⟩ := foldlM_processTile_draws pf w h (hextileTiles w h) _ st hfold
    constructor
    · intro x y hx hy
      obtain ⟨op, hopmem, hoprect⟩ := hmem _ (tile_mem w h x y hx hy)
      refine ⟨op, hopmem, ?_⟩
      rw [hoprect]
      obtain ⟨hx1, hx2⟩ := tile_covers w x hx
      obtain ⟨hy1, hy2⟩ := tile_covers h y hy
      exact ⟨hx1, hx2, hy1, hy2⟩
    · intro tc htc
      unfold hextileTiles at htc
      rw [List.mem_flatMap] at htc
      obtain ⟨r, hr, htc2⟩ := htc
      rw [List.mem_map] at htc2
      obtain ⟨c, hc, hEq⟩ := htc2
      rw [List.mem_range] at hr hc
      subst hEq
      dsimp only
      constructor
      · unfold hexTileW
        split_ifs <;> omega
      · unfold hexTileH
        split_ifs <;> omega

/-- Witness for C6: a 1-by-1 rectangle whose single tile is a plain
background fill; its one pixel is covered. -/
theorem hextileRead_coverage_witness :
    ∃ op ∈ ([DrawOp.fill ⟨0, 0, 1, 1⟩ (0, 0, 0, 255)] : List DrawOp),
      (DrawOp.rect op).covers 0 0 :=
  (hextileRead_coverage pf32be 1 1 (by decide) (by decide) [0]
    [DrawOp.fill ⟨0, 0, 1, 1⟩ (0, 0, 0, 255)] [] rfl).1 0 0 (by decide) (by decide)

end GoVNC
